import Mathlib

/-!
Verification of the `mistral-ocr-gradio` PDF-to-markdown pipeline (`src/app.py`).

The program is sequential orchestration: upload a PDF, call an OCR service,
concatenate the per-page markdown with `<!-- Page N -->` markers, optionally
substitute image placeholders (`![alt](url)`) by AI-generated descriptions via
`re.sub(r'!\[.*?\]\(.*?\)', description, page_markdown, count=1)`, optionally
post-process with a second service, and persist the result to a temp file,
all inside a single top-level `try/except`.

The embedding works over `List Char` (Python `str`).  External collaborators
(document upload, OCR, Gemini, the temp-file facility) are modelled by a
`World` record carrying each call's outcome; everything the local code does
with those outcomes is translated directly from `src/app.py`.
-/

/-! The placeholder regex `!\[.*?\]\(.*?\)`

Python `re` semantics, specialised to this fixed pattern: `.` does not match
a newline, `*?` is non-greedy with backtracking, and matching is leftmost.
`matchParen u` matches `.*?\)` against `u` (the shortest prefix ending at the
first `)` reachable without crossing a newline) and returns the number of
characters consumed.  `matchBody l` matches `.*?\]\(.*?\)` against `l`: it
scans for a `](` candidate; on a candidate it tries the parenthesis part and,
if that fails, backtracks by letting `.` consume the `]`. -/

def matchParen : List Char → Option Nat
  | [] => none
  | c :: rest =>
    if c = ')' then some 1
    else if c = '\n' then none
    else (matchParen rest).map (· + 1)

def matchBody : List Char → Option Nat
  | [] => none
  | [_] => none
  | c :: c2 :: rest =>
    if c = '\n' then none
    else if c = ']' ∧ c2 = '(' then
      match matchParen rest with
      | some k => some (2 + k)
      | none => (matchBody (c2 :: rest)).map (· + 1)
    else (matchBody (c2 :: rest)).map (· + 1)

/-- Replacement of the leftmost placeholder match by the literal text
`d`; if there is no match, `l` is returned unchanged.  A match at a
position is `!` `[` followed by a `matchBody` match of the remainder.
This is `re.sub(r'!\[.*?\]\(.*?\)', d, l, count=1)` exactly when `d`
contains no backslash (the general replacement-template semantics is
`subTemplate` over `pyParseTemplate`, defined below, which coincides
with `subFirst` in the backslash-free case). -/
def subFirst (d : List Char) : List Char → List Char
  | [] => []
  | [c] => [c]
  | c :: c2 :: rest =>
    if c = '!' ∧ c2 = '[' then
      match matchBody rest with
      | some k => d ++ rest.drop k
      | none => c :: subFirst d (c2 :: rest)
    else c :: subFirst d (c2 :: rest)

/-- Number of (non-overlapping, leftmost) matches of the placeholder
pattern, as `re.findall` would produce. -/
def countPlaceholders : List Char → Nat
  | [] => 0
  | [_] => 0
  | c :: c2 :: rest =>
    if c = '!' ∧ c2 = '[' then
      match matchBody rest with
      | some k => 1 + countPlaceholders (rest.drop k)
      | none => countPlaceholders (c2 :: rest)
    else countPlaceholders (c2 :: rest)
termination_by l => l.length
decreasing_by
  all_goals simp_arith [List.length]


/-! A model of Python `json.loads`

`src/app.py` parses each `image_annotation` string with `json.loads` and
catches only `json.JSONDecodeError`.  The model below follows CPython's
`json` module (default arguments): objects, arrays, strings with the
standard escapes (including `\uXXXX` with surrogate-pair combination),
`true` / `false` / `null`, the non-standard `NaN` / `Infinity` /
`-Infinity` constants, and numbers per the scanner's regular expression
`(-?(?:0|[1-9]\d*))(\.\d+)?([eE][-+]?\d+)?`.  Numeric literals are kept as
their lexeme: the program never observes a numeric value except through
truthiness and the `int` / `float` type name, both recoverable from the
lexeme.

A failed parse carries its kind: ordinary malformed input raises
`json.JSONDecodeError` (`JsonFailure.decodeErr`), but deeply nested input
exhausts the interpreter's recursion budget and raises `RecursionError`
(`JsonFailure.recursionErr`), which the `except json.JSONDecodeError` on
line 151 does NOT catch — it escapes to the top-level handler and fails
the whole request.  CPython's budget is `sys.getrecursionlimit()` (default
1000) minus the stack depth already consumed at the call site; it is
modelled as the fixed container-nesting budget `jsonRecursionLimit`.

A Python `dict` built from an object keeps the *last* binding of a
repeated key.  One divergence, invisible to every claim: a lone UTF-16
surrogate escape decodes to the NUL character rather than to a lone
surrogate code unit (Lean `Char` cannot carry a surrogate). -/

inductive Json where
  | null : Json
  | bool (b : Bool) : Json
  | num (raw : List Char) : Json
  | str (text : List Char) : Json
  | arr (elems : List Json) : Json
  | obj (fields : List (List Char × Json)) : Json

/-- Outcome kind of a failed `json.loads`: a `json.JSONDecodeError`
(caught by line 151) or a `RecursionError` (not caught there). -/
inductive JsonFailure where
  | decodeErr : JsonFailure
  | recursionErr : JsonFailure
deriving DecidableEq

/-- Container-nesting budget before `RecursionError`
(`sys.getrecursionlimit()`, default 1000; the runtime subtracts the stack
depth already in use — modelled as the default limit). -/
def jsonRecursionLimit : Nat := 1000

def isJsonWs (c : Char) : Bool :=
  c = ' ' || c = '\t' || c = '\n' || c = '\r'

def skipWs : List Char → List Char
  | [] => []
  | c :: rest => if isJsonWs c then skipWs rest else c :: rest

def hexVal (c : Char) : Option Nat :=
  if '0' ≤ c ∧ c ≤ '9' then some (c.toNat - 48)
  else if 'a' ≤ c ∧ c ≤ 'f' then some (c.toNat - 87)
  else if 'A' ≤ c ∧ c ≤ 'F' then some (c.toNat - 55)
  else none

def hex4 (h1 h2 h3 h4 : Char) : Option Nat := do
  let v1 ← hexVal h1
  let v2 ← hexVal h2
  let v3 ← hexVal h3
  let v4 ← hexVal h4
  pure (v1 * 4096 + v2 * 256 + v3 * 16 + v4)

/-- Single-character escapes accepted after a backslash in a JSON string. -/
def escChar (c : Char) : Option Char :=
  if c = '"' then some '"'
  else if c = '\\' then some '\\'
  else if c = '/' then some '/'
  else if c = 'b' then some '\x08'
  else if c = 'f' then some '\x0c'
  else if c = 'n' then some '\n'
  else if c = 'r' then some '\r'
  else if c = 't' then some '\t'
  else none

def consStr (c : Char) (r : Except JsonFailure (List Char × List Char)) :
    Except JsonFailure (List Char × List Char) :=
  r.map (fun p => (c :: p.1, p.2))

/-- Parse the body of a JSON string, the opening quote already consumed.
Returns the decoded characters and the remainder after the closing quote.
Raw control characters are rejected (`strict=True`); a `\uXXXX` high
surrogate followed by a low surrogate escape combines into one scalar.
String scanning is iterative in CPython, so its failures are all
`JSONDecodeError`. -/
def parseJString (fuel : Nat) (l : List Char) :
    Except JsonFailure (List Char × List Char) :=
  match fuel with
  | 0 => .error .decodeErr
  | fuel + 1 =>
    match l with
    | [] => .error .decodeErr
    | c :: rest =>
      if c = '"' then .ok ([], rest)
      else if c = '\\' then
        match rest with
        | [] => .error .decodeErr
        | e :: rest2 =>
          if e = 'u' then
            match rest2 with
            | h1 :: h2 :: h3 :: h4 :: rest3 =>
              match hex4 h1 h2 h3 h4 with
              | none => .error .decodeErr
              | some n1 =>
                if 0xd800 ≤ n1 ∧ n1 < 0xdc00 then
                  match rest3 with
                  | '\\' :: 'u' :: g1 :: g2 :: g3 :: g4 :: rest4 =>
                    match hex4 g1 g2 g3 g4 with
                    | some n2 =>
                      if 0xdc00 ≤ n2 ∧ n2 < 0xe000 then
                        consStr
                          (Char.ofNat
                            (0x10000 + (n1 - 0xd800) * 0x400 + (n2 - 0xdc00)))
                          (parseJString fuel rest4)
                      else consStr (Char.ofNat n1) (parseJString fuel rest3)
                    | none => consStr (Char.ofNat n1) (parseJString fuel rest3)
                  | _ => consStr (Char.ofNat n1) (parseJString fuel rest3)
                else consStr (Char.ofNat n1) (parseJString fuel rest3)
            | _ => .error .decodeErr
          else
            match escChar e with
            | some c2 => consStr c2 (parseJString fuel rest2)
            | none => .error .decodeErr
      else if c.toNat < 0x20 then .error .decodeErr
      else consStr c (parseJString fuel rest)

def takeDigits (l : List Char) : List Char × List Char :=
  (l.takeWhile Char.isDigit, l.dropWhile Char.isDigit)

/-- Parse a numeric literal per the scanner regex
`(-?(?:0|[1-9]\d*))(\.\d+)?([eE][-+]?\d+)?`, keeping the matched lexeme.
The fractional and exponent parts are taken only when complete, exactly as
the optional regex groups would match. -/
def parseNum (l : List Char) : Except JsonFailure (Json × List Char) :=
  let sl : List Char × List Char :=
    match l with
    | '-' :: r => (['-'], r)
    | _ => ([], l)
  match sl.2 with
  | [] => .error .decodeErr
  | c :: r =>
    if ¬ c.isDigit then .error .decodeErr
    else
      let ir : List Char × List Char :=
        if c = '0' then (['0'], r) else takeDigits sl.2
      let fr : List Char × List Char :=
        match ir.2 with
        | '.' :: r2 =>
          let dd := takeDigits r2
          if dd.1.isEmpty then ([], ir.2) else ('.' :: dd.1, dd.2)
        | _ => ([], ir.2)
      let er : List Char × List Char :=
        match fr.2 with
        | e :: r3 =>
          if e = 'e' ∨ e = 'E' then
            let sg : List Char × List Char :=
              match r3 with
              | '+' :: t => (['+'], t)
              | '-' :: t => (['-'], t)
              | _ => ([], r3)
            let dd := takeDigits sg.2
            if dd.1.isEmpty then ([], fr.2) else (e :: (sg.1 ++ dd.1), dd.2)
          else ([], fr.2)
        | [] => ([], fr.2)
      .ok (.num (sl.1 ++ ir.1 ++ fr.1 ++ er.1), er.2)

/-- Consume an expected literal tail such as `rue` after `t`. -/
def dropLit (lit l : List Char) : Option (List Char) :=
  if lit.isPrefixOf l then some (l.drop lit.length) else none

mutual

/-- Parse one JSON value at container-nesting depth `depth`, leading
whitespace allowed, following the order of checks in CPython's scanner.
Entering an object or array when the recursion budget is exhausted
raises `RecursionError`. -/
def parseValue : Nat → Nat → List Char → Except JsonFailure (Json × List Char)
  | 0, _, _ => .error .decodeErr
  | fuel + 1, depth, l =>
    match skipWs l with
    | [] => .error .decodeErr
    | c :: rest =>
      if c = '"' then
        match parseJString (rest.length + 1) rest with
        | .ok p => .ok (.str p.1, p.2)
        | .error e => .error e
      else if c = '\x7b' then
        if jsonRecursionLimit ≤ depth then .error .recursionErr
        else
          match skipWs rest with
          | '\x7d' :: r2 => .ok (.obj [], r2)
          | l2 => parseMembers fuel (depth + 1) l2 []
      else if c = '[' then
        if jsonRecursionLimit ≤ depth then .error .recursionErr
        else
          match skipWs rest with
          | ']' :: r2 => .ok (.arr [], r2)
          | l2 => parseElems fuel (depth + 1) l2 []
      else if c = 'n' then
        match dropLit ("ull".data) rest with
        | some r2 => .ok (.null, r2)
        | none => .error .decodeErr
      else if c = 't' then
        match dropLit ("rue".data) rest with
        | some r2 => .ok (.bool true, r2)
        | none => .error .decodeErr
      else if c = 'f' then
        match dropLit ("alse".data) rest with
        | some r2 => .ok (.bool false, r2)
        | none => .error .decodeErr
      else if c = 'N' then
        match dropLit ("aN".data) rest with
        | some r2 => .ok (.num ("NaN".data), r2)
        | none => .error .decodeErr
      else if c = 'I' then
        match dropLit ("nfinity".data) rest with
        | some r2 => .ok (.num ("Infinity".data), r2)
        | none => .error .decodeErr
      else if c = '-' ∧ ("Infinity".data).isPrefixOf rest then
        .ok (.num ("-Infinity".data), rest.drop 8)
      else parseNum (c :: rest)

/-- Parse the members of an object after `{` (at least one member
present), its values at depth `depth`. -/
def parseMembers (fuel : Nat) (depth : Nat) (l : List Char)
    (acc : List (List Char × Json)) : Except JsonFailure (Json × List Char) :=
  match fuel with
  | 0 => .error .decodeErr
  | fuel + 1 =>
    match l with
    | '"' :: rest =>
      match parseJString (rest.length + 1) rest with
      | .error e => .error e
      | .ok p =>
        match skipWs p.2 with
        | ':' :: r2 =>
          match parseValue fuel depth r2 with
          | .error e => .error e
          | .ok q =>
            match skipWs q.2 with
            | ',' :: r3 =>
              parseMembers fuel depth (skipWs r3) (acc ++ [(p.1, q.1)])
            | '\x7d' :: r3 => .ok (.obj (acc ++ [(p.1, q.1)]), r3)
            | _ => .error .decodeErr
        | _ => .error .decodeErr
    | _ => .error .decodeErr

/-- Parse the elements of an array after `[` (at least one element
present), at depth `depth`. -/
def parseElems (fuel : Nat) (depth : Nat) (l : List Char) (acc : List Json) :
    Except JsonFailure (Json × List Char) :=
  match fuel with
  | 0 => .error .decodeErr
  | fuel + 1 =>
    match parseValue fuel depth l with
    | .error e => .error e
    | .ok q =>
      match skipWs q.2 with
      | ',' :: r2 => parseElems fuel depth r2 (acc ++ [q.1])
      | ']' :: r2 => .ok (.arr (acc ++ [q.1]), r2)
      | _ => .error .decodeErr

end

/-- Python `json.loads`: one value, optionally surrounded by whitespace;
anything left over is an `Extra data` failure.  The failure kind is
preserved: only `decodeErr` is the catchable `JSONDecodeError`. -/
def pyJsonLoads (src : List Char) : Except JsonFailure Json :=
  match parseValue (2 * src.length + 8) 0 src with
  | .error f => .error f
  | .ok p => if (skipWs p.2).isEmpty then .ok p.1 else .error .decodeErr

/-- Python `dict.get(key, default)` on a dict built from parsed object members:
a repeated key keeps its last binding, so the accumulator is overwritten
as the field list is traversed. -/
def dictGet : List (List Char × Json) → List Char → Json → Json
  | [], _, dflt => dflt
  | kv :: rest, key, dflt =>
    dictGet rest key (if kv.1 = key then kv.2 else dflt)

/-- Zero test for a numeric lexeme (used for Python truthiness of the
number: `0`, `-0.00`, `0e5`, ... are falsy; `NaN` and `Infinity` are
truthy). -/
def numIsZero (raw : List Char) : Bool :=
  let raw2 := if raw.head? = some '-' then raw.tail else raw
  let mant := raw2.takeWhile (fun c => c.isDigit || c = '.')
  !mant.isEmpty && mant.all (fun c => c = '0' || c = '.')

/-- Python truthiness of a decoded JSON value (`if description:`). -/
def pyTruthy : Json → Bool
  | .null => false
  | .bool b => b
  | .num raw => !numIsZero raw
  | .str text => !text.isEmpty
  | .arr elems => !elems.isEmpty
  | .obj fields => !fields.isEmpty

/-- Python type name of a decoded JSON value, as it appears in
`AttributeError` / `TypeError` messages. -/
def pyTypeName : Json → List Char
  | .null => "NoneType".data
  | .bool _ => "bool".data
  | .num raw =>
    if raw.any (fun c => c = '.' || c = 'e' || c = 'E') ||
        raw = "NaN".data || raw = "Infinity".data || raw = "-Infinity".data
    then "float".data else "int".data
  | .str _ => "str".data
  | .arr _ => "list".data
  | .obj _ => "dict".data



/-! Data model of the OCR response and the external world

The OCR service returns an ordered list of pages; each page has a
`markdown` text and a list of images; an image may carry a serialized
`image_annotation` record (`imageAnnot` here; attribute absent and
attribute `None` are modelled alike, both make the truthiness test skip
the image).  Every external call of `src/app.py` is modelled by its
outcome, recorded in a `World`: the upload (signed URL or exception), the
OCR call, the Gemini client (availability, and the response text as a
function of the request contents), and the temp-file creation/write.
An exception carries its `str(e)` text. -/

structure PyErr where
  msg : List Char
deriving DecidableEq

/-- The `RecursionError` escaping `json.loads` on deeply nested input
(not caught by `except json.JSONDecodeError`). -/
def pyRecursionErr : PyErr :=
  ⟨"maximum recursion depth exceeded".data⟩

/-! The `re.sub` replacement template

When the replacement string of `re.sub` contains a backslash, CPython
compiles it as a replacement template (`re._parser.parse_template`)
*before* scanning for matches: `\n`, `\t`, ... become control characters,
`\0` and `\ooo` are octal escapes, `\1`-`\99` and `\g<name>` are group
references (this program's pattern has no capturing groups, so only group
0 — the whole match — is valid), a backslash before any other ASCII
letter raises `re.error` ("bad escape"), a backslash before a non-letter
is kept literally, and a trailing backslash raises `re.error` — all of
this even when the subject contains no match, and none of it caught by
`except json.JSONDecodeError`.  A replacement without a backslash is used
literally (the compiled template is then exactly the literal text).
The " at position N" suffix of CPython's `re.error` messages is
omitted. -/

inductive ReplItem where
  | lit (c : Char) : ReplItem
  | grp : ReplItem

def isOct (c : Char) : Bool := '0' ≤ c && c ≤ '7'

def octV (c : Char) : Nat := c.toNat - 48

def digitsToNat (l : List Char) : Nat :=
  l.foldl (fun a c => a * 10 + (c.toNat - 48)) 0

/-- Template escapes of ASCII letters (note `\b` is backspace in a
replacement template, unlike in a pattern) plus `\\`. -/
def templEsc (c : Char) : Option Char :=
  if c = 'a' then some '\x07'
  else if c = 'b' then some '\x08'
  else if c = 'f' then some '\x0c'
  else if c = 'n' then some '\n'
  else if c = 'r' then some '\r'
  else if c = 't' then some '\t'
  else if c = 'v' then some '\x0b'
  else if c = '\\' then some '\\'
  else none

/-- Compile a replacement string into a template, following
`re._parser.parse_template` specialised to a pattern with no capturing
groups (group 0 is the only valid reference). -/
def parseTemplate : Nat → List Char → Except PyErr (List ReplItem)
  | 0, _ => .error ⟨"replacement template fuel exhausted".data⟩
  | _ + 1, [] => .ok []
  | fuel + 1, c :: rest =>
    if c = '\\' then
      match rest with
      | [] => .error ⟨"bad escape (end of pattern)".data⟩
      | e :: r2 =>
        if e = 'g' then
          match r2 with
          | '<' :: r3 =>
            let name := r3.takeWhile (fun x => ¬ x = '>')
            let r4 := r3.dropWhile (fun x => ¬ x = '>')
            match r4 with
            | '>' :: r5 =>
              if name.isEmpty then .error ⟨"missing group name".data⟩
              else if name.all Char.isDigit then
                if digitsToNat name = 0 then
                  (parseTemplate fuel r5).map (fun its => .grp :: its)
                else .error ⟨"invalid group reference".data⟩
              else if name.head? = some '-' ∧ name.tail.all Char.isDigit ∧
                  ¬ name.tail.isEmpty then
                .error ⟨"negative group number".data⟩
              else .error ⟨"unknown group name".data⟩
            | _ => .error ⟨"missing >, unterminated name".data⟩
          | _ => .error ⟨"missing <".data⟩
        else if e = '0' then
          match r2 with
          | d1 :: r3 =>
            if isOct d1 then
              match r3 with
              | d2 :: r4 =>
                if isOct d2 then
                  (parseTemplate fuel r4).map
                    (fun its => .lit (Char.ofNat (octV d1 * 8 + octV d2)) :: its)
                else
                  (parseTemplate fuel r3).map
                    (fun its => .lit (Char.ofNat (octV d1)) :: its)
              | [] =>
                (parseTemplate fuel r3).map
                  (fun its => .lit (Char.ofNat (octV d1)) :: its)
            else (parseTemplate fuel r2).map (fun its => .lit '\x00' :: its)
          | [] => (parseTemplate fuel r2).map (fun its => .lit '\x00' :: its)
        else if e.isDigit then
          match r2 with
          | d2 :: d3 :: r4 =>
            if isOct e ∧ isOct d2 ∧ isOct d3 then
              (parseTemplate fuel r4).map (fun its =>
                .lit (Char.ofNat ((octV e * 64 + octV d2 * 8 + octV d3) % 256))
                  :: its)
            else .error ⟨"invalid group reference".data⟩
          | _ => .error ⟨"invalid group reference".data⟩
        else
          match templEsc e with
          | some c2 => (parseTemplate fuel r2).map (fun its => .lit c2 :: its)
          | none =>
            if e.isAlpha then .error ⟨("bad escape \\".data ++ [e])⟩
            else
              (parseTemplate fuel r2).map
                (fun its => .lit '\\' :: .lit e :: its)
    else (parseTemplate fuel rest).map (fun its => .lit c :: its)

/-- The compiled template of a replacement string (adequate fuel: every
step consumes at least one character). -/
def pyParseTemplate (repl : List Char) : Except PyErr (List ReplItem) :=
  parseTemplate (repl.length + 1) repl

/-- Expand a compiled template at a match: group 0 is the matched text. -/
def expandRepl : List ReplItem → List Char → List Char
  | [], _ => []
  | .lit c :: rest, m => c :: expandRepl rest m
  | .grp :: rest, m => m ++ expandRepl rest m

/-- Model of `re.sub(r'!\[.*?\]\(.*?\)', repl, l, count=1)` with a
compiled replacement template: the leftmost match is replaced by the
template expanded at that match; without a match `l` is returned
unchanged. -/
def subTemplate (items : List ReplItem) : List Char → List Char
  | [] => []
  | [c] => [c]
  | c :: c2 :: rest =>
    if c = '!' ∧ c2 = '[' then
      match matchBody rest with
      | some k =>
        expandRepl items ('!' :: '[' :: rest.take k) ++ rest.drop k
      | none => c :: subTemplate items (c2 :: rest)
    else c :: subTemplate items (c2 :: rest)

structure OcrImage where
  imageAnnot : Option (List Char)

structure OcrPage where
  markdown : List Char
  images : List OcrImage

structure World where
  uploadResult : Except PyErr (List Char)
  ocrResult : Except PyErr (List OcrPage)
  geminiAvailable : Bool
  geminiResult : List Char → Except PyErr (List Char)
  tempFileResult : Except PyErr (List Char)

/-- The `AttributeError` raised by `annotation_dict.get` when `json.loads`
returned a non-dict (not caught by `except json.JSONDecodeError`). -/
def attrErr (j : Json) : PyErr :=
  ⟨"'".data ++ pyTypeName j ++ "' object has no attribute 'get'".data⟩

/-- The `TypeError` raised eagerly by `re.sub` replacement-template
compilation when the replacement is a truthy non-string. -/
def typeErr (j : Json) : PyErr :=
  ⟨"decoding to str: need a bytes-like object, ".data ++ pyTypeName j ++
    " found".data⟩

/-- One iteration of the `for image in page.images` loop of
`process_pdf_ocr` (src/app.py lines 137-153), acting on the running
`page_markdown`. -/
def applyImage (page_markdown : List Char) (image : OcrImage) :
    Except PyErr (List Char) :=
  match image.imageAnnot with
  | none => .ok page_markdown
  | some a =>
    if a.isEmpty then .ok page_markdown
    else
      match pyJsonLoads a with
      | .error .decodeErr => .ok page_markdown
      | .error .recursionErr => .error pyRecursionErr
      | .ok j =>
        match j with
        | .obj fields =>
          let description := dictGet fields ("description".data) (.str [])
          if pyTruthy description then
            match description with
            | .str d =>
              match pyParseTemplate d with
              | .error e => .error e
              | .ok items => .ok (subTemplate items page_markdown)
            | _ => .error (typeErr description)
          else .ok page_markdown
        | _ => .error (attrErr j)

/-- The whole image loop: the first uncaught exception aborts it. -/
def applyImages : List Char → List OcrImage → Except PyErr (List Char)
  | md, [] => .ok md
  | md, image :: rest =>
    match applyImage md image with
    | .error e => .error e
    | .ok md2 => applyImages md2 rest

/-- Per-page markdown after the optional placeholder substitution
(guard `include_image_descriptions and hasattr(page, 'images') and
page.images`). -/
def processPage (incl : Bool) (page : OcrPage) : Except PyErr (List Char) :=
  if incl && !page.images.isEmpty then applyImages page.markdown page.images
  else .ok page.markdown

/-- The page marker `f"<!-- Page {idx} -->\n\n"`. -/
def pageMarker (idx : Nat) : List Char :=
  "<!-- Page ".data ++ Nat.toDigits 10 idx ++ " -->\n\n".data

/-- The page loop of `process_pdf_ocr` (src/app.py lines 130-156),
starting from index `idx` (`enumerate(ocr_response.pages, 1)` starts it
at 1). -/
def assemblePages (incl : Bool) : Nat → List OcrPage → Except PyErr (List Char)
  | _, [] => .ok []
  | idx, page :: rest =>
    match processPage incl page with
    | .error e => .error e
    | .ok pmd =>
      match assemblePages incl (idx + 1) rest with
      | .error e => .error e
      | .ok restMd => .ok (pageMarker idx ++ (pmd ++ ("\n\n".data ++ restMd)))

/-- The assembled document of an OCR response. -/
def assemble (incl : Bool) (pages : List OcrPage) : Except PyErr (List Char) :=
  assemblePages incl 1 pages

/-- The fixed instruction prompt of `cleanup_markdown_with_gemini`. -/
def geminiPrompt : List Char :=
  ("You are a markdown formatting expert. Your task is to clean up and improve the formatting of OCR-extracted markdown content from a PDF document.\n\nPlease perform the following cleanup tasks:\n\n1. **Remove page markers**: Delete all `<!-- Page X -->` comment tags\n2. **Fix paragraph spacing**: If text appears to run from one page to another mid-sentence or mid-paragraph, merge them together properly without extra line breaks\n3. **Format Tables of Contents**: Convert any table of contents sections (with dots/periods like \"Section Name ..... Page Number\") into proper markdown tables with columns for \"Section\" and \"Page\"\n4. **Format Lists of Tables/Figures**: Convert any \"List of Tables\" or \"List of Figures\" sections (with dots/periods) into proper markdown tables\n5. **Improve table formatting**: Ensure all markdown tables have proper spacing and are human-readable\n6. **Preserve structure**: Keep all headings, lists, and other formatting intact\n7. **Preserve content**: Do not remove, summarize, or change any actual content - only improve formatting\n8. **Format Abbreviations**: If there is a section for abbreviations, it is most likely this should be presented as a table\n9. **Format Tables**: Tables should have human readable spacing.\n\nReturn ONLY the cleaned markdown content without any explanations or commentary. \n\nYou do not need to wrap the entire text in ```markdown tags.\n\nHere is the markdown to clean up:\n\n").data

/-- Model of `cleanup_markdown_with_gemini` (src/app.py lines 64-99): skipped when
the Gemini client is unconfigured (`gemini_available` false covers the
absent-key and failed-construction cases alike); one
`generate_content(prompt + markdown)` call whose failure is swallowed,
returning the input unchanged. -/
def cleanup_markdown_with_gemini (w : World) (markdown_content : List Char) :
    List Char :=
  if !w.geminiAvailable then markdown_content
  else
    match w.geminiResult (geminiPrompt ++ markdown_content) with
    | .ok response => response
    | .error _ => markdown_content

/-- A `progress(p, desc=...)` call; the source reports the fractions 0,
0.3, 0.7, 0.9 and 1.0, recorded here as integer percentages. -/
structure ProgressEvent where
  percent : Nat
  desc : List Char
deriving DecidableEq

/-- The tuple returned to the Gradio layer: markdown text, optional path
of the downloadable file, status string. -/
structure ProcessResult where
  markdown : List Char
  file : Option (List Char)
  status : List Char
deriving DecidableEq

/-- The observable behaviour of one `process_pdf_ocr` run: the returned
tuple, the sequence of progress callbacks, and the persisted temp file
(path and content written), if any. -/
structure RunTrace where
  result : ProcessResult
  events : List ProgressEvent
  written : Option (List Char × List Char)

/-- The error tuple produced by the top-level `except Exception` handler:
`("", None, f"✗ Error processing PDF: {str(e)}")`. -/
def errorResult (e : PyErr) : ProcessResult :=
  ⟨[], none, "✗ Error processing PDF: ".data ++ e.msg⟩

/-- The success status `f"✓ Successfully processed {len(ocr_response.pages)} page(s)"`. -/
def successStatus (n : Nat) : List Char :=
  "✓ Successfully processed ".data ++ Nat.toDigits 10 n ++ " page(s)".data

/-- Model of `process_pdf_ocr` (src/app.py lines 102-174): upload, OCR, page
assembly, optional Gemini cleanup, temp-file persist, under one
`try/except Exception` whose handler returns the error tuple.  The
`include_image_descriptions` flag also selects the `bbox_annotation_format`
OCR parameter; the response itself is `w.ocrResult` either way. -/
def process_pdf_ocr (w : World)
    (include_image_descriptions cleanup_with_gemini : Bool) : RunTrace :=
  let ev0 := [ProgressEvent.mk 0 ("Uploading PDF to Mistral...".data)]
  match w.uploadResult with
  | .error e => ⟨errorResult e, ev0, none⟩
  | .ok _pdf_url =>
    let ev1 := ev0 ++ [ProgressEvent.mk 30 ("Processing OCR...".data)]
    match w.ocrResult with
    | .error e => ⟨errorResult e, ev1, none⟩
    | .ok pages =>
      let ev2 := ev1 ++ [ProgressEvent.mk 70 ("Generating markdown...".data)]
      match assemble include_image_descriptions pages with
      | .error e => ⟨errorResult e, ev2, none⟩
      | .ok md =>
        let cleaned : List Char × List ProgressEvent :=
          if cleanup_with_gemini && w.geminiAvailable then
            (cleanup_markdown_with_gemini w md,
              ev2 ++ [ProgressEvent.mk 90
                ("Cleaning up markdown with Gemini...".data)])
          else (md, ev2)
        let ev4 := cleaned.2 ++ [ProgressEvent.mk 100 ("Complete!".data)]
        match w.tempFileResult with
        | .error e => ⟨errorResult e, ev4, none⟩
        | .ok temp_path =>
          ⟨⟨cleaned.1, some temp_path, successStatus pages.length⟩,
            ev4, some (temp_path, cleaned.1)⟩

/-- Success of a whole run, phase by phase (the cleanup stage cannot
fail). -/
def runSucceeds (w : World) (incl : Bool) : Bool :=
  match w.uploadResult, w.ocrResult with
  | .ok _, .ok pages =>
    (assemble incl pages).toBool && w.tempFileResult.toBool
  | _, _ => false

/-! Lemmas about the placeholder matcher

The key fact behind positional substitution: a string that is an exact
match of the pattern keeps matching with the same length when more text
is appended (`matchBody_append`).  This holds because an exact match ends
in `)`; any backtracking candidate that failed inside it failed on a
newline, which appending cannot remove. -/

theorem matchParen_append {u : List Char} {k : Nat}
    (h : matchParen u = some k) (r : List Char) :
    matchParen (u ++ r) = some k := by
  induction u generalizing k with
  | nil => simp [matchParen] at h
  | cons c u' ih =>
    by_cases hc : c = ')'
    · simp only [matchParen, if_pos hc] at h ⊢
      exact h
    · by_cases hn : c = '\n'
      · simp [matchParen, hc, hn] at h
      · simp only [matchParen, if_neg hc, if_neg hn] at h ⊢
        cases hm : matchParen u' with
        | none => rw [hm] at h; simp at h
        | some k' =>
          rw [hm] at h
          simp only [Option.map_some'] at h
          simp only [List.append_eq, ih hm, Option.map_some']
          exact h

theorem matchParen_append_of_mem {u : List Char} (h : ')' ∈ u)
    (r : List Char) : matchParen (u ++ r) = matchParen u := by
  induction u with
  | nil => simp at h
  | cons c u' ih =>
    by_cases hc : c = ')'
    · simp [matchParen, hc]
    · by_cases hn : c = '\n'
      · simp [matchParen, hc, hn]
      · have h' : ')' ∈ u' := by
          rcases List.mem_cons.mp h with h1 | h1
          · exact absurd h1.symm hc
          · exact h1
        simp only [List.cons_append, matchParen, if_neg hc, if_neg hn,
          List.append_eq, ih h']

theorem matchParen_full {u : List Char} (h : matchParen u = some u.length) :
    ∃ v, u = v ++ [')'] := by
  induction u with
  | nil => simp [matchParen] at h
  | cons c u' ih =>
    by_cases hc : c = ')'
    · simp only [matchParen, if_pos hc, List.length_cons] at h
      have : u'.length = 0 := by
        have := Option.some.inj h
        omega
      have : u' = [] := List.eq_nil_of_length_eq_zero this
      subst this; subst hc
      exact ⟨[], rfl⟩
    · by_cases hn : c = '\n'
      · simp [matchParen, hc, hn] at h
      · simp only [matchParen, if_neg hc, if_neg hn, List.length_cons] at h
        cases hm : matchParen u' with
        | none => rw [hm] at h; simp at h
        | some k' =>
          rw [hm] at h
          simp only [Option.map_some'] at h
          have hk : k' = u'.length := by
            have := Option.some.inj h
            omega
          subst hk
          obtain ⟨v, hv⟩ := ih hm
          exact ⟨c :: v, by rw [hv]; rfl⟩

theorem matchBody_full : ∀ {b : List Char},
    matchBody b = some b.length → ∃ v, b = v ++ [')'] := by
  intro b
  induction b with
  | nil => intro h; simp [matchBody] at h
  | cons c b' ih =>
    intro h
    cases b' with
    | nil => simp [matchBody] at h
    | cons c2 rest =>
      by_cases hn : c = '\n'
      · simp [matchBody, hn] at h
      · by_cases hb : c = ']' ∧ c2 = '('
        · rw [matchBody, if_neg hn, if_pos hb] at h
          cases hm : matchParen rest with
          | some k =>
            rw [hm] at h
            simp only [List.length_cons] at h
            have hk : k = rest.length := by
              have := Option.some.inj h
              omega
            subst hk
            obtain ⟨v, hv⟩ := matchParen_full hm
            exact ⟨c :: c2 :: v, by rw [hv]; rfl⟩
          | none =>
            rw [hm] at h
            simp only [List.length_cons] at h
            cases hm2 : matchBody (c2 :: rest) with
            | none => rw [hm2] at h; simp at h
            | some k2 =>
              rw [hm2] at h
              simp only [Option.map_some'] at h
              have hk2 : k2 = (c2 :: rest).length := by
                have := Option.some.inj h
                simp only [List.length_cons]
                omega
              obtain ⟨v, hv⟩ := ih (by rw [hm2, hk2])
              exact ⟨c :: v, by rw [hv]; rfl⟩
        · rw [matchBody, if_neg hn, if_neg hb] at h
          simp only [List.length_cons] at h
          cases hm2 : matchBody (c2 :: rest) with
          | none => rw [hm2] at h; simp at h
          | some k2 =>
            rw [hm2] at h
            simp only [Option.map_some'] at h
            have hk2 : k2 = (c2 :: rest).length := by
              have := Option.some.inj h
              simp only [List.length_cons]
              omega
            obtain ⟨v, hv⟩ := ih (by rw [hm2, hk2])
            exact ⟨c :: v, by rw [hv]; rfl⟩

theorem matchBody_append : ∀ {b : List Char},
    matchBody b = some b.length →
    ∀ r, matchBody (b ++ r) = some b.length := by
  intro b
  induction b with
  | nil => intro h; simp [matchBody] at h
  | cons c b' ih =>
    intro h r
    cases b' with
    | nil => simp [matchBody] at h
    | cons c2 rest =>
      simp only [List.cons_append]
      by_cases hn : c = '\n'
      · simp [matchBody, hn] at h
      · by_cases hb : c = ']' ∧ c2 = '('
        · rw [matchBody, if_neg hn, if_pos hb] at h
          rw [matchBody, if_neg hn, if_pos hb]
          cases hm : matchParen rest with
          | some k =>
            rw [hm] at h
            rw [matchParen_append hm r]
            simpa using h
          | none =>
            rw [hm] at h
            cases hm2 : matchBody (c2 :: rest) with
            | none => rw [hm2] at h; simp at h
            | some k2 =>
              rw [hm2] at h
              simp only [Option.map_some', Option.some.injEq,
                List.length_cons] at h
              have hk2 : k2 = (c2 :: rest).length := by
                simp only [List.length_cons]
                omega
              have hfull := matchBody_full (b := c2 :: rest) (by rw [hm2, hk2])
              have hmem : ')' ∈ rest := by
                obtain ⟨v, hv⟩ := hfull
                cases v with
                | nil =>
                  rw [List.nil_append] at hv
                  injection hv with h1 h2
                  rw [hb.2] at h1
                  exact absurd h1 (by decide)
                | cons x v' =>
                  injection hv with h1 h2
                  rw [h2]
                  simp
              have hih := ih (by rw [hm2, hk2]) r
              simp only [List.cons_append] at hih
              rw [matchParen_append_of_mem hmem r, hm]
              show (matchBody (c2 :: (rest ++ r))).map (· + 1) =
                some (c :: c2 :: rest).length
              rw [hih, Option.map_some']
              simp
        · rw [matchBody, if_neg hn, if_neg hb] at h
          rw [matchBody, if_neg hn, if_neg hb]
          cases hm2 : matchBody (c2 :: rest) with
          | none => rw [hm2] at h; simp at h
          | some k2 =>
            rw [hm2] at h
            simp only [Option.map_some', Option.some.injEq,
              List.length_cons] at h
            have hk2 : k2 = (c2 :: rest).length := by
              simp only [List.length_cons]
              omega
            have hih := ih (by rw [hm2, hk2]) r
            simp only [List.cons_append] at hih
            rw [hih, Option.map_some']
            simp

/-! Lemmas about `subFirst` and `countPlaceholders`. -/

theorem subFirst_append_noBang {q : List Char} (hq : '!' ∉ q)
    (d l : List Char) : subFirst d (q ++ l) = q ++ subFirst d l := by
  induction q with
  | nil => rfl
  | cons c q' ih =>
    have hc : c ≠ '!' := fun hcc => hq (hcc ▸ List.mem_cons_self c q')
    have hq' : '!' ∉ q' := fun hm => hq (List.mem_cons_of_mem c hm)
    cases hql : q' ++ l with
    | nil =>
      obtain ⟨h1, h2⟩ := List.append_eq_nil.mp hql
      subst h1; subst h2
      rfl
    | cons x xs =>
      rw [List.cons_append, hql, subFirst,
        if_neg (fun hand => hc hand.1), ← hql, ih hq']
      rfl

theorem subFirst_noBang {l : List Char} (h : '!' ∉ l) (d : List Char) :
    subFirst d l = l := by
  have := subFirst_append_noBang h d []
  simpa [subFirst] using this

theorem subFirst_match {b : List Char} (h : matchBody b = some b.length)
    (d r : List Char) : subFirst d ('!' :: '[' :: (b ++ r)) = d ++ r := by
  cases b with
  | nil => simp [matchBody] at h
  | cons x b' =>
    rw [List.cons_append, subFirst, if_pos ⟨rfl, rfl⟩]
    have hm := matchBody_append h r
    rw [List.cons_append] at hm
    rw [hm]
    show d ++ List.drop (x :: b').length ((x :: b') ++ r) = d ++ r
    rw [List.drop_left]

theorem count_append_noBang {q : List Char} (hq : '!' ∉ q)
    (l : List Char) : countPlaceholders (q ++ l) = countPlaceholders l := by
  induction q with
  | nil => rfl
  | cons c q' ih =>
    have hc : c ≠ '!' := fun hcc => hq (hcc ▸ List.mem_cons_self c q')
    have hq' : '!' ∉ q' := fun hm => hq (List.mem_cons_of_mem c hm)
    cases hql : q' ++ l with
    | nil =>
      obtain ⟨h1, h2⟩ := List.append_eq_nil.mp hql
      subst h1; subst h2
      simp [countPlaceholders]
    | cons x xs =>
      rw [List.cons_append, hql, countPlaceholders,
        if_neg (fun hand => hc hand.1), ← hql, ih hq']

theorem count_noBang {l : List Char} (h : '!' ∉ l) :
    countPlaceholders l = 0 := by
  have := count_append_noBang h []
  simpa [countPlaceholders] using this

theorem count_match {b : List Char} (h : matchBody b = some b.length)
    (r : List Char) :
    countPlaceholders ('!' :: '[' :: (b ++ r)) = 1 + countPlaceholders r := by
  cases b with
  | nil => simp [matchBody] at h
  | cons x b' =>
    rw [List.cons_append, countPlaceholders, if_pos ⟨rfl, rfl⟩]
    have hm := matchBody_append h r
    rw [List.cons_append] at hm
    rw [hm]
    show 1 + countPlaceholders (List.drop (x :: b').length ((x :: b') ++ r)) =
      1 + countPlaceholders r
    rw [List.drop_left]

/-! Placeholder decomposition of a page's markdown

For the positional-substitution theorem the page markdown is presented as
an alternation `p₀ ++ m₀ ++ p₁ ++ m₁ ++ ... ++ tail` of separator texts
`pᵢ` free of `!` and exact matches `mᵢ` of the placeholder pattern.
`glue` assembles the alternation; `replaceDescs` replaces the first
`min(N, M)` matches by the given description texts. -/

def glue : List (List Char × List Char) → List Char → List Char
  | [], tail => tail
  | pm :: rest, tail => pm.1 ++ (pm.2 ++ glue rest tail)

def replaceDescs :
    List (List Char × List Char) → List (List Char) →
      List (List Char × List Char)
  | pairs, [] => pairs
  | [], _ => []
  | pm :: pairs, d :: descs => (pm.1, d) :: replaceDescs pairs descs

theorem replaceDescs_nil (pairs : List (List Char × List Char)) :
    replaceDescs pairs [] = pairs := by
  cases pairs <;> rfl

theorem replaceDescs_nil_left (descs : List (List Char)) :
    replaceDescs [] descs = [] := by
  cases descs <;> rfl

/-- Predicate: `m` is an exact match of the placeholder pattern (it matches and the
match consumes all of `m`). -/
def exactPh (m : List Char) : Prop :=
  ∃ b, m = '!' :: '[' :: b ∧ matchBody b = some b.length

/-- A segment/match pair of the decomposition: separator text without
`!`, followed by an exact placeholder match. -/
def GoodPair (pm : List Char × List Char) : Prop :=
  '!' ∉ pm.1 ∧ exactPh pm.2

/-- The image carries a well-formed annotation whose parsed `description`
field is the non-empty string `d` (the hypothesis of the substitution
claims: "valid non-empty description"). -/
def YieldsDesc (image : OcrImage) (d : List Char) : Prop :=
  ∃ a fields, image.imageAnnot = some a ∧
    pyJsonLoads a = .ok (.obj fields) ∧
    dictGet fields ("description".data) (.str []) = .str d ∧ d ≠ []

theorem parseTemplate_noBackslash :
    ∀ (fuel : Nat) (l : List Char), '\\' ∉ l → l.length < fuel →
    parseTemplate fuel l = .ok (l.map ReplItem.lit) := by
  intro fuel
  induction fuel with
  | zero => intro l h hlen; exact absurd hlen (by omega)
  | succ f ih =>
    intro l h hlen
    cases l with
    | nil => rfl
    | cons c rest =>
      have hc : c ≠ '\\' := fun he => h (he ▸ List.mem_cons_self c rest)
      simp only [parseTemplate, if_neg hc]
      rw [ih rest (fun hm => h (List.mem_cons_of_mem c hm))
        (by simp only [List.length_cons] at hlen; omega)]
      rfl

theorem expandRepl_lits (d : List Char) (m : List Char) :
    expandRepl (d.map ReplItem.lit) m = d := by
  induction d with
  | nil => rfl
  | cons c rest ih => rw [List.map_cons, expandRepl, ih]

theorem subTemplate_lits (d : List Char) :
    ∀ l, subTemplate (d.map ReplItem.lit) l = subFirst d l := by
  intro l
  induction l with
  | nil => rfl
  | cons c l' ih =>
    cases l' with
    | nil => rfl
    | cons c2 rest =>
      by_cases hc : c = '!' ∧ c2 = '['
      · rw [subTemplate, if_pos hc, subFirst, if_pos hc]
        cases hm : matchBody rest with
        | some k =>
          show expandRepl (d.map ReplItem.lit) ('!' :: '[' :: rest.take k) ++
            rest.drop k = d ++ rest.drop k
          rw [expandRepl_lits]
        | none =>
          show c :: subTemplate (d.map ReplItem.lit) (c2 :: rest) =
            c :: subFirst d (c2 :: rest)
          rw [ih]
      · rw [subTemplate, if_neg hc, subFirst, if_neg hc, ih]

theorem applyImage_yields {image : OcrImage} {d : List Char}
    (h : YieldsDesc image d) (hbs : '\\' ∉ d) (md : List Char) :
    applyImage md image = .ok (subFirst d md) := by
  obtain ⟨a, fields, ha, hj, hget, hd⟩ := h
  have hne : a.isEmpty = false := by
    cases a with
    | nil =>
      rw [show pyJsonLoads [] = .error .decodeErr from rfl] at hj
      exact Except.noConfusion hj
    | cons x xs => rfl
  have htpl : pyParseTemplate d = .ok (d.map ReplItem.lit) :=
    parseTemplate_noBackslash (d.length + 1) d hbs (Nat.lt_succ_self _)
  rw [applyImage, ha]
  simp [hne, hj, hget, pyTruthy, List.isEmpty_iff, hd, htpl,
    subTemplate_lits]

/-- Core induction for positional substitution: running the image loop on
`q ++ glue pairs tail` (with `q` an already-processed prefix free of `!`)
replaces the leading matches of the decomposition, one per annotation,
left to right. -/
theorem applyImages_glue {images : List OcrImage} {descs : List (List Char)}
    (hf : List.Forall₂ YieldsDesc images descs)
    (hd : ∀ d ∈ descs, '!' ∉ d ∧ '\\' ∉ d) :
    ∀ (pairs : List (List Char × List Char)) (q tail : List Char),
    (∀ pm ∈ pairs, GoodPair pm) → '!' ∉ q → '!' ∉ tail →
    applyImages (q ++ glue pairs tail) images =
      .ok (q ++ glue (replaceDescs pairs descs) tail) := by
  induction hf with
  | nil =>
    intro pairs q tail hp hq ht
    rw [replaceDescs_nil]
    rfl
  | @cons image d images' descs' himg hrest ih =>
    intro pairs q tail hp hq ht
    have hd' : ∀ x ∈ descs', '!' ∉ x ∧ '\\' ∉ x := fun x hx =>
      hd x (List.mem_cons_of_mem d hx)
    have hdm : '!' ∉ d := (hd d (List.mem_cons_self d descs')).1
    have hdbs : '\\' ∉ d := (hd d (List.mem_cons_self d descs')).2
    cases pairs with
    | nil =>
      rw [show glue [] tail = tail from rfl, applyImages,
        applyImage_yields himg hdbs,
        subFirst_noBang (show '!' ∉ q ++ tail by simp [hq, ht])]
      show applyImages (q ++ tail) images' =
        Except.ok (q ++ glue (replaceDescs [] (d :: descs')) tail)
      have h2 := ih hd' [] q tail (by intro pm hpm; simp at hpm) hq ht
      simp only [replaceDescs_nil_left,
        show glue [] tail = tail from rfl] at h2 ⊢
      exact h2
    | cons pm pairs' =>
      obtain ⟨hp1, b, hmb, hb⟩ :
          '!' ∉ pm.1 ∧ ∃ b, pm.2 = '!' :: '[' :: b ∧
            matchBody b = some b.length := by
        obtain ⟨h1, b, h2, h3⟩ := hp pm (List.mem_cons_self pm pairs')
        exact ⟨h1, b, h2, h3⟩
      have hglue : q ++ glue (pm :: pairs') tail =
          (q ++ pm.1) ++ ('!' :: '[' :: (b ++ glue pairs' tail)) := by
        rw [glue, hmb]
        simp [List.append_assoc]
      rw [applyImages, applyImage_yields himg hdbs, hglue,
        subFirst_append_noBang (show '!' ∉ q ++ pm.1 by simp [hq, hp1]),
        subFirst_match hb]
      show applyImages ((q ++ pm.1) ++ (d ++ glue pairs' tail)) images' =
        Except.ok (q ++ glue (replaceDescs (pm :: pairs') (d :: descs')) tail)
      have hassoc : (q ++ pm.1) ++ (d ++ glue pairs' tail) =
          ((q ++ pm.1) ++ d) ++ glue pairs' tail := by
        simp [List.append_assoc]
      rw [hassoc, ih hd' pairs' ((q ++ pm.1) ++ d) tail
        (fun x hx => hp x (List.mem_cons_of_mem pm hx))
        (by simp [hq, hp1, hdm]) ht]
      rw [show replaceDescs (pm :: pairs') (d :: descs') =
        (pm.1, d) :: replaceDescs pairs' descs' from rfl, glue]
      simp [List.append_assoc]

theorem count_glue (pairs : List (List Char × List Char)) :
    ∀ (q tail : List Char), (∀ pm ∈ pairs, GoodPair pm) →
    '!' ∉ q → '!' ∉ tail →
    countPlaceholders (q ++ glue pairs tail) = pairs.length := by
  induction pairs with
  | nil =>
    intro q tail hp hq ht
    rw [show glue [] tail = tail from rfl, count_append_noBang hq,
      count_noBang ht]
    rfl
  | cons pm pairs' ih =>
    intro q tail hp hq ht
    obtain ⟨hp1, b, hmb, hb⟩ :
        '!' ∉ pm.1 ∧ ∃ b, pm.2 = '!' :: '[' :: b ∧
          matchBody b = some b.length := by
      obtain ⟨h1, b, h2, h3⟩ := hp pm (List.mem_cons_self pm pairs')
      exact ⟨h1, b, h2, h3⟩
    have hglue : q ++ glue (pm :: pairs') tail =
        (q ++ pm.1) ++ ('!' :: '[' :: (b ++ glue pairs' tail)) := by
      rw [glue, hmb]
      simp [List.append_assoc]
    rw [hglue,
      count_append_noBang (show '!' ∉ q ++ pm.1 by simp [hq, hp1]),
      count_match hb]
    have h2 := ih [] tail (fun x hx => hp x (List.mem_cons_of_mem pm hx))
      (by simp) ht
    rw [List.nil_append] at h2
    rw [h2, List.length_cons]
    omega

theorem count_glue_replaced (descs : List (List Char)) :
    ∀ (pairs : List (List Char × List Char)) (q tail : List Char),
    (∀ pm ∈ pairs, GoodPair pm) → (∀ d ∈ descs, '!' ∉ d) →
    '!' ∉ q → '!' ∉ tail →
    countPlaceholders (q ++ glue (replaceDescs pairs descs) tail) =
      pairs.length - descs.length := by
  induction descs with
  | nil =>
    intro pairs q tail hp hd hq ht
    rw [replaceDescs_nil, count_glue pairs q tail hp hq ht]
    rfl
  | cons d descs' ih =>
    intro pairs q tail hp hd hq ht
    cases pairs with
    | nil =>
      rw [replaceDescs_nil_left, show glue [] tail = tail from rfl,
        count_append_noBang hq, count_noBang ht]
      simp
    | cons pm pairs' =>
      have hglue2 : q ++ glue (replaceDescs (pm :: pairs') (d :: descs')) tail =
          ((q ++ pm.1) ++ d) ++ glue (replaceDescs pairs' descs') tail := by
        rw [show replaceDescs (pm :: pairs') (d :: descs') =
          (pm.1, d) :: replaceDescs pairs' descs' from rfl, glue]
        simp [List.append_assoc]
      have hp1 : '!' ∉ pm.1 := (hp pm (List.mem_cons_self pm pairs')).1
      have hdm : '!' ∉ d := hd d (List.mem_cons_self d descs')
      rw [hglue2, ih pairs' ((q ++ pm.1) ++ d) tail
        (fun x hx => hp x (List.mem_cons_of_mem pm hx))
        (fun x hx => hd x (List.mem_cons_of_mem d hx))
        (by simp [hq, hp1, hdm]) ht]
      simp [Nat.succ_sub_succ]

/-- A backslash escape in a description is template-processed, not
inserted literally: the parsed description `x\ty` (backslash-t) replaces
the placeholder by `x`, TAB, `y`. -/
theorem applyImage_template_escape :
    applyImage ("![a](b)".data)
      ⟨some ("\x7b\"description\":\"x\\\\ty\"\x7d".data)⟩ =
      .ok ("x\ty".data) := by
  rfl

/-- A bad escape in a description raises `re.error` eagerly — even though
the page text contains no placeholder — and the error is not a
`JSONDecodeError`, so it fails the whole request. -/
theorem applyImage_template_error :
    applyImage ("plain text".data)
      ⟨some ("\x7b\"description\":\"\\\\q\"\x7d".data)⟩ =
      .error ⟨"bad escape \\q".data⟩ := by
  rfl

/-- Claim C1 (amended): for a page whose markdown is an alternation
`p₀ m₀ p₁ m₁ … p_N tail` of `!`-free separator texts and exact
image-placeholder matches (so the markdown contains exactly
`N = pairs.length` placeholders), and whose image list carries `M` valid
non-empty descriptions none of which contains the character `!` or a
backslash, assembly with `include_image_descriptions` replaces exactly
`min(N, M)` placeholders left-to-right positionally — annotation `i`
replaces the `i`-th placeholder with its literal description text — and
leaves the remaining `N − M` placeholders untouched.  (The original
claim is refuted by `c1_counterexample`: a description containing
placeholder syntax is itself targeted by the next annotation.  The
backslash restriction is forced by `re.sub` replacement-template
processing: a backslash-containing description is not inserted literally
— `\t` becomes a TAB (`applyImage_template_escape`), and `\q` or `\1`
raise `re.error`, failing the whole request even with no placeholder
present (`applyImage_template_error`).) -/
theorem c1_positional_substitution
    (images : List OcrImage) (descs : List (List Char))
    (pairs : List (List Char × List Char)) (tail : List Char)
    (hf : List.Forall₂ YieldsDesc images descs)
    (hd : ∀ d ∈ descs, '!' ∉ d ∧ '\\' ∉ d)
    (hp : ∀ pm ∈ pairs, GoodPair pm)
    (ht : '!' ∉ tail) :
    processPage true ⟨glue pairs tail, images⟩ =
      .ok (glue (replaceDescs pairs descs) tail) ∧
    countPlaceholders (glue pairs tail) = pairs.length ∧
    countPlaceholders (glue (replaceDescs pairs descs) tail) =
      pairs.length - descs.length := by
  refine ⟨?_, ?_, ?_⟩
  · cases images with
    | nil =>
      cases hf
      rw [replaceDescs_nil]
      rfl
    | cons img images' =>
      rw [processPage, if_pos (by simp)]
      have h := applyImages_glue hf hd pairs [] tail hp (by simp) ht
      simpa using h
  · have h := count_glue pairs [] tail hp (by simp) ht
    simpa using h
  · have h := count_glue_replaced descs pairs [] tail hp
      (fun x hx => (hd x hx).1) (by simp) ht
    simpa using h

/-- Claim C1 counterexample: page markdown `![a](b) ![c](d)` has two
placeholders; the two annotations carry the valid non-empty descriptions
`![x](y)` and `Z`.  The claim predicts positional replacement giving
`![x](y) Z`.  The code instead produces `Z ![c](d)`: the second
annotation replaces the placeholder-shaped text just inserted by the
first, and the second original placeholder survives. -/
theorem c1_counterexample :
    processPage true
      ⟨"![a](b) ![c](d)".data,
        [⟨some ("\x7b\"description\":\"![x](y)\"\x7d".data)⟩,
         ⟨some ("\x7b\"description\":\"Z\"\x7d".data)⟩]⟩ =
      .ok ("Z ![c](d)".data) ∧
    "Z ![c](d)".data ≠ "![x](y) Z".data := by
  exact ⟨rfl, by decide⟩

/-- Claim C1 witness: the concrete instance from the claim — one
placeholder, one annotation `{"description":"A red triangle."}` — the
placeholder is replaced exactly once by the literal text
`A red triangle.`. -/
theorem c1_witness :
    processPage true
      ⟨"![img](url)".data,
        [⟨some ("\x7b\"description\":\"A red triangle.\"\x7d".data)⟩]⟩ =
      .ok ("A red triangle.".data) ∧
    countPlaceholders ("![img](url)".data) = 1 := by
  have hf : List.Forall₂ YieldsDesc
      [⟨some ("\x7b\"description\":\"A red triangle.\"\x7d".data)⟩]
      ["A red triangle.".data] := by
    refine List.Forall₂.cons ?_ List.Forall₂.nil
    exact ⟨"\x7b\"description\":\"A red triangle.\"\x7d".data,
      [("description".data, .str ("A red triangle.".data))],
      rfl, by rfl, by rfl, by decide⟩
  have h := c1_positional_substitution _ _
    [(([] : List Char), "![img](url)".data)] [] hf
    (by intro x hx; simp at hx; subst hx; exact ⟨by decide, by decide⟩)
    (by
      intro pm hpm
      simp at hpm
      subst hpm
      refine ⟨by simp, ?_⟩
      exact ⟨"img](url)".data, rfl, by decide⟩)
    (by decide)
  obtain ⟨h1, h2, _⟩ := h
  exact ⟨h1, h2⟩

/-! Claim C3: a malformed annotation is skipped. -/

/-- Naive substring test, used to state that a placeholder no longer
occurs in an output. -/
def hasSub (needle hay : List Char) : Bool :=
  hay.tails.any (fun t => needle.isPrefixOf t)

theorem parseElems_succ (fuel depth : Nat) (l : List Char)
    (acc : List Json) :
    parseElems (fuel + 1) depth l acc =
      match parseValue fuel depth l with
      | .error e => .error e
      | .ok q =>
        match skipWs q.2 with
        | ',' :: r2 => parseElems fuel depth r2 (acc ++ [q.1])
        | ']' :: r2 => .ok (.arr (acc ++ [q.1]), r2)
        | _ => .error .decodeErr := rfl

/-- A run of `[` longer than the remaining recursion budget makes the
scanner raise `RecursionError`. -/
theorem parseValue_deep :
    ∀ (n f d : Nat), 1 ≤ n → jsonRecursionLimit < d + n → 2 * n ≤ f →
    parseValue f d (List.replicate n '[') = .error .recursionErr := by
  intro n
  induction n with
  | zero => intro f d h1 h2 h3; exact absurd h1 (by omega)
  | succ n ih =>
    intro f d h1 h2 h3
    cases f with
    | zero => exact absurd h3 (by omega)
    | succ f' =>
      rw [List.replicate_succ]
      have e1 : parseValue (f' + 1) d ('[' :: List.replicate n '[') =
          (if jsonRecursionLimit ≤ d then .error .recursionErr
           else
             match skipWs (List.replicate n '[') with
             | ']' :: r2 => .ok (.arr [], r2)
             | l2 => parseElems f' (d + 1) l2 []) := rfl
      rw [e1]
      by_cases hd : jsonRecursionLimit ≤ d
      · rw [if_pos hd]
      · rw [if_neg hd]
        have hn : 1 ≤ n := by omega
        cases n with
        | zero => exact absurd hn (by omega)
        | succ m =>
          rw [List.replicate_succ]
          rw [show skipWs ('[' :: List.replicate m '[') =
            '[' :: List.replicate m '[' from rfl]
          cases f' with
          | zero => exact absurd h3 (by omega)
          | succ f'' =>
            show parseElems (f'' + 1) (d + 1)
              ('[' :: List.replicate m '[') [] = .error .recursionErr
            have hih := ih f'' (d + 1) (by omega) (by omega) (by omega)
            rw [List.replicate_succ] at hih
            rw [parseElems_succ, hih]

/-- Deeply nested input exhausts the recursion budget: the failure is a
`RecursionError`, not the catchable `JSONDecodeError`. -/
theorem pyJsonLoads_deep_nesting :
    pyJsonLoads (List.replicate 1001 '[') = .error .recursionErr := by
  rw [pyJsonLoads, List.length_replicate,
    parseValue_deep 1001 (2 * 1001 + 8) 0 (by omega) (by decide) (by omega)]

theorem applyImage_malformed {image : OcrImage} {a : List Char}
    (ha : image.imageAnnot = some a)
    (hj : pyJsonLoads a = .error .decodeErr)
    (md : List Char) : applyImage md image = .ok md := by
  rw [applyImage, ha]
  simp [hj]

theorem applyImage_recursion {image : OcrImage} {a : List Char}
    (ha : image.imageAnnot = some a)
    (hj : pyJsonLoads a = .error .recursionErr)
    (md : List Char) : applyImage md image = .error pyRecursionErr := by
  have hne : a.isEmpty = false := by
    cases a with
    | nil =>
      rw [show pyJsonLoads [] = .error .decodeErr from rfl] at hj
      exact absurd (Except.error.inj hj) (by decide)
    | cons x xs => rfl
  rw [applyImage, ha]
  simp [hne, hj]

theorem applyImages_skip {bad : OcrImage} {a : List Char}
    (ha : bad.imageAnnot = some a)
    (hj : pyJsonLoads a = .error .decodeErr)
    (a₂ : List OcrImage) :
    ∀ (a₁ : List OcrImage) (md : List Char),
    applyImages md (a₁ ++ bad :: a₂) = applyImages md (a₁ ++ a₂) := by
  intro a₁
  induction a₁ with
  | nil =>
    intro md
    rw [List.nil_append, List.nil_append, applyImages,
      applyImage_malformed ha hj]
  | cons x a₁' ih =>
    intro md
    rw [List.cons_append, List.cons_append, applyImages, applyImages]
    cases hax : applyImage md x with
    | error e => rfl
    | ok md2 => exact ih md2

/-- Claim C3 (amended): an annotation whose serialized record raises
`json.JSONDecodeError` aborts nothing: the page (and hence every page)
assembles to exactly what it would assemble to with that annotation
removed from its list.  In particular the malformed annotation triggers
no replacement; one fewer placeholder is replaced on the page, the later
annotations shifting up by one.  (Two parts of the original claim fail:
the placeholder the malformed annotation "would have matched" does not
stay unreplaced when a later valid annotation exists — it is the very one
that annotation consumes, see `c3_counterexample` — and "not valid JSON"
must be narrowed to `JSONDecodeError`: deeply nested input raises
`RecursionError` instead, which line 151 does not catch, so it aborts the
page and the whole request, as the second conjunct here shows.) -/
theorem c3_malformed_skipped (incl : Bool) (md : List Char)
    (a₁ a₂ : List OcrImage) (bad : OcrImage) (a : List Char)
    (ha : bad.imageAnnot = some a)
    (hj : pyJsonLoads a = .error .decodeErr) :
    (processPage incl ⟨md, a₁ ++ bad :: a₂⟩ =
      processPage incl ⟨md, a₁ ++ a₂⟩) ∧
    (∀ (big : OcrImage) (a2 : List Char) (rest : List OcrImage)
      (md2 : List Char),
      big.imageAnnot = some a2 → pyJsonLoads a2 = .error .recursionErr →
      processPage true ⟨md2, big :: rest⟩ = .error pyRecursionErr) := by
  constructor
  · cases incl with
    | false => rfl
    | true =>
      rw [processPage, processPage]
      rw [if_pos (by simp)]
      by_cases hnil : a₁ ++ a₂ = []
      · obtain ⟨h1, h2⟩ := List.append_eq_nil.mp hnil
        subst h1; subst h2
        rw [if_neg (by simp)]
        have h := applyImages_skip ha hj [] [] md
        simpa [applyImages] using h
      · rw [if_pos (by simp [List.isEmpty_iff, hnil])]
        exact applyImages_skip ha hj a₂ a₁ md
  · intro big a2 rest md2 hb hr
    rw [processPage, if_pos (by simp), applyImages,
      applyImage_recursion hb hr]

/-- Claim C3 counterexample: page markdown `![a](b) ![c](d)`; the first
annotation is malformed (`not json`), the second valid with description
`D`.  The claim says the placeholder the malformed annotation would have
matched — the first, `![a](b)` — remains unreplaced; in fact the second
annotation replaces it (output `D ![c](d)`, in which `![a](b)` no longer
occurs). -/
theorem c3_counterexample :
    processPage true
      ⟨"![a](b) ![c](d)".data,
        [⟨some ("not json".data)⟩,
         ⟨some ("\x7b\"description\":\"D\"\x7d".data)⟩]⟩ =
      .ok ("D ![c](d)".data) ∧
    hasSub ("![a](b)".data) ("D ![c](d)".data) = false := by
  exact ⟨rfl, by decide⟩

/-- Claim C3 witness: a page whose only annotation is malformed
assembles exactly like the page with no annotations, leaving the
placeholder untouched. -/
theorem c3_witness :
    processPage true ⟨"![a](b)".data, [⟨some ("not json".data)⟩]⟩ =
      processPage true ⟨"![a](b)".data, ([] : List OcrImage)⟩ ∧
    processPage true ⟨"![a](b)".data, ([] : List OcrImage)⟩ =
      .ok ("![a](b)".data) := by
  constructor
  · exact (c3_malformed_skipped true ("![a](b)".data) [] []
      ⟨some ("not json".data)⟩ ("not json".data) rfl rfl).1
  · rfl

/-! Claims C2 and C9: the assembled document's shape. -/

/-- The canonical interleaving: markers numbered consecutively from
`idx`, one per page text, each page followed by a blank-line separator. -/
def withMarkers : Nat → List (List Char) → List Char
  | _, [] => []
  | idx, md :: rest =>
    pageMarker idx ++ (md ++ ("\n\n".data ++ withMarkers (idx + 1) rest))

theorem assemblePages_markers (incl : Bool) (pages : List OcrPage) :
    ∀ (idx : Nat) (doc : List Char),
    assemblePages incl idx pages = .ok doc →
    ∃ mds, mds.length = pages.length ∧ doc = withMarkers idx mds := by
  induction pages with
  | nil =>
    intro idx doc h
    refine ⟨[], rfl, ?_⟩
    have : doc = [] := by
      rw [assemblePages] at h
      exact (Except.ok.inj h).symm
    rw [this]
    rfl
  | cons p rest ih =>
    intro idx doc h
    rw [assemblePages] at h
    cases hpp : processPage incl p with
    | error e => rw [hpp] at h; exact absurd h (by simp)
    | ok pmd =>
      rw [hpp] at h
      cases hrr : assemblePages incl (idx + 1) rest with
      | error e => rw [hrr] at h; exact absurd h (by simp)
      | ok restMd =>
        rw [hrr] at h
        obtain ⟨mds, hlen, hdoc⟩ := ih (idx + 1) restMd hrr
        refine ⟨pmd :: mds, by simp [hlen], ?_⟩
        rw [← Except.ok.inj h, withMarkers, hdoc]

/-- Claim C2: whenever assembly succeeds, the assembled document is
exactly the interleaving of one page marker per page result with the
page texts, the markers numbered consecutively starting at 1 (strictly
increasing, no gaps), in input order, their count equal to the OCR
response's page count. -/
theorem c2_page_markers (incl : Bool) (pages : List OcrPage)
    (doc : List Char) (h : assemble incl pages = .ok doc) :
    ∃ mds, mds.length = pages.length ∧ doc = withMarkers 1 mds :=
  assemblePages_markers incl pages 1 doc h

/-- Claim C2 witness: a concrete two-page assembly decomposes as markers
1 and 2 around the page texts. -/
theorem c2_witness :
    ∃ mds, mds.length =
        ([⟨"A".data, []⟩, ⟨"B".data, []⟩] : List OcrPage).length ∧
      "<!-- Page 1 -->\n\nA\n\n<!-- Page 2 -->\n\nB\n\n".data =
        withMarkers 1 mds :=
  c2_page_markers false [⟨"A".data, []⟩, ⟨"B".data, []⟩]
    ("<!-- Page 1 -->\n\nA\n\n<!-- Page 2 -->\n\nB\n\n".data) rfl

theorem assemblePages_false (pages : List OcrPage) :
    ∀ idx, assemblePages false idx pages =
      .ok (withMarkers idx (pages.map OcrPage.markdown)) := by
  induction pages with
  | nil => intro idx; rfl
  | cons p rest ih =>
    intro idx
    rw [assemblePages, show processPage false p = .ok p.markdown from rfl,
      ih (idx + 1)]
    rfl

/-- Claim C9: with `include_image_descriptions` disabled the assembled
markdown is a function of the page texts alone — it always succeeds,
equals the canonical interleaving of the verbatim page texts, and is
unchanged under arbitrary modification of the image annotation records. -/
theorem c9_annotation_noninterference (pages pages2 : List OcrPage)
    (hmd : pages.map OcrPage.markdown = pages2.map OcrPage.markdown) :
    assemble false pages =
      .ok (withMarkers 1 (pages.map OcrPage.markdown)) ∧
    assemble false pages = assemble false pages2 := by
  constructor
  · exact assemblePages_false pages 1
  · rw [assemble, assemble, assemblePages_false pages 1,
      assemblePages_false pages2 1, hmd]

/-- Claim C9 witness: two one-page responses agreeing on the page text
but one carrying an annotation produce identical assembled output. -/
theorem c9_witness :
    assemble false [⟨"A".data, [⟨some ("junk".data)⟩]⟩] =
      assemble false [(⟨"A".data, []⟩ : OcrPage)] ∧
    assemble false [⟨"A".data, [⟨some ("junk".data)⟩]⟩] =
      .ok ("<!-- Page 1 -->\n\nA\n\n".data) := by
  have h := c9_annotation_noninterference
    [⟨"A".data, [⟨some ("junk".data)⟩]⟩] [⟨"A".data, []⟩] rfl
  exact ⟨h.2, h.1⟩

/-! Claims about the cleanup stage and the session driver. -/

/-- Claim C4: whenever the cleanup service is unconfigured, or the one
request made for this markdown raises any error, the cleanup stage
returns its input byte-identically; being a total function, it can never
fail the overall request. -/
theorem c4_cleanup_fallback (w : World) (md : List Char)
    (h : w.geminiAvailable = false ∨
      ∃ e, w.geminiResult (geminiPrompt ++ md) = .error e) :
    cleanup_markdown_with_gemini w md = md := by
  rcases h with h1 | ⟨e, h1⟩
  · simp [cleanup_markdown_with_gemini, h1]
  · cases hg : w.geminiAvailable <;>
      simp [cleanup_markdown_with_gemini, hg, h1]

/-- A world whose cleanup service always raises. -/
def wGeminiError : World :=
  ⟨.ok ("u".data), .ok [⟨"A".data, []⟩], true,
    fun _ => .error ⟨"boom".data⟩, .ok ("/tmp/out.md".data)⟩

/-- Claim C4 witness: a failing cleanup call returns the input
markdown unchanged. -/
theorem c4_witness :
    cleanup_markdown_with_gemini wGeminiError ("# Doc".data) = "# Doc".data :=
  c4_cleanup_fallback wGeminiError ("# Doc".data)
    (Or.inr ⟨⟨"boom".data⟩, rfl⟩)

/-- Claim C5: any failure in the Upload, OCR or Assemble phases makes
the driver return the empty markdown, an absent file, and the status
`✗ Error processing PDF: ` followed by the error's textual description —
for the OCR case regardless of the upload having succeeded; nothing is
persisted. -/
theorem c5_pipeline_failure (w : World) (i c : Bool) (e : PyErr)
    (h : w.uploadResult = .error e ∨
      (∃ u, w.uploadResult = .ok u ∧ w.ocrResult = .error e) ∨
      (∃ u pages, w.uploadResult = .ok u ∧ w.ocrResult = .ok pages ∧
        assemble i pages = .error e)) :
    (process_pdf_ocr w i c).result =
      ⟨[], none, "✗ Error processing PDF: ".data ++ e.msg⟩ ∧
    (process_pdf_ocr w i c).written = none := by
  rcases h with h1 | ⟨u, h1, h2⟩ | ⟨u, pages, h1, h2, h3⟩
  · constructor <;> simp [process_pdf_ocr, h1, errorResult]
  · constructor <;> simp [process_pdf_ocr, h1, h2, errorResult]
  · constructor <;> simp [process_pdf_ocr, h1, h2, h3, errorResult]

/-- A world whose OCR call raises after a successful upload. -/
def wOcrError : World :=
  ⟨.ok ("u".data), .error ⟨"quota exceeded".data⟩, false,
    fun _ => .error ⟨[]⟩, .ok ("/tmp/out.md".data)⟩

/-- Claim C5 witness: a failed OCR call after a successful upload yields
the error tuple carrying the OCR error's text. -/
theorem c5_witness :
    (process_pdf_ocr wOcrError true false).result =
      ⟨[], none, "✗ Error processing PDF: quota exceeded".data⟩ ∧
    (process_pdf_ocr wOcrError true false).written = none := by
  have h := c5_pipeline_failure wOcrError true false ⟨"quota exceeded".data⟩
    (Or.inr (Or.inl ⟨"u".data, rfl, rfl⟩))
  exact h

/-- Claim C6: the returned file path is present exactly when every phase
succeeded; on success the driver returns the final (possibly cleaned)
markdown together with the path of the temp file to which that same
markdown was written, and a status reporting the page count. -/
theorem c6_file_iff_success (w : World) (i c : Bool) :
    ((process_pdf_ocr w i c).result.file.isSome = runSucceeds w i) ∧
    (∀ pages md path, w.ocrResult = .ok pages → assemble i pages = .ok md →
      w.tempFileResult = .ok path → (∃ u, w.uploadResult = .ok u) →
      (process_pdf_ocr w i c).result =
        ⟨if c && w.geminiAvailable then cleanup_markdown_with_gemini w md
          else md, some path, successStatus pages.length⟩ ∧
      (process_pdf_ocr w i c).written =
        some (path, if c && w.geminiAvailable then
          cleanup_markdown_with_gemini w md else md)) := by
  constructor
  · cases hu : w.uploadResult with
    | error e => simp [process_pdf_ocr, runSucceeds, hu, errorResult]
    | ok u =>
      cases ho : w.ocrResult with
      | error e => simp [process_pdf_ocr, runSucceeds, hu, ho, errorResult]
      | ok pages =>
        cases ha : assemble i pages with
        | error e =>
          simp [process_pdf_ocr, runSucceeds, hu, ho, ha, errorResult,
            Except.toBool]
        | ok md =>
          cases hT : w.tempFileResult with
          | error e =>
            simp [process_pdf_ocr, runSucceeds, hu, ho, ha, hT,
              errorResult, Except.toBool]
          | ok path =>
            simp [process_pdf_ocr, runSucceeds, hu, ho, ha, hT,
              Except.toBool]
  · intro pages md path ho ha hT hu
    obtain ⟨u, hu⟩ := hu
    cases hg : c && w.geminiAvailable <;>
      constructor <;> simp [process_pdf_ocr, hu, ho, ha, hT, hg]

/-- A world for a clean two-page run with no images and no cleanup
service. -/
def wTwoPages : World :=
  ⟨.ok ("u".data), .ok [⟨"A".data, []⟩, ⟨"B".data, []⟩], false,
    fun _ => .error ⟨[]⟩, .ok ("/tmp/out.md".data)⟩

/-- Claim C6 witness: on the concrete successful two-page run the file
path is present, and the persisted content is the returned markdown. -/
theorem c6_witness :
    (process_pdf_ocr wTwoPages false false).result.file.isSome =
      runSucceeds wTwoPages false ∧
    (process_pdf_ocr wTwoPages false false).result =
      ⟨"<!-- Page 1 -->\n\nA\n\n<!-- Page 2 -->\n\nB\n\n".data,
        some ("/tmp/out.md".data),
        "✓ Successfully processed 2 page(s)".data⟩ ∧
    (process_pdf_ocr wTwoPages false false).written =
      some ("/tmp/out.md".data,
        "<!-- Page 1 -->\n\nA\n\n<!-- Page 2 -->\n\nB\n\n".data) := by
  have h := c6_file_iff_success wTwoPages false false
  have h2 := h.2 [⟨"A".data, []⟩, ⟨"B".data, []⟩]
    ("<!-- Page 1 -->\n\nA\n\n<!-- Page 2 -->\n\nB\n\n".data)
    ("/tmp/out.md".data) rfl rfl rfl ⟨"u".data, rfl⟩
  exact ⟨h.1, h2.1, h2.2⟩

/-- Claim C7: a two-page response with no images and cleanup disabled
returns exactly the marker-text-separator concatenation of the claim,
and the status reports 2 page(s). -/
theorem c7_two_page_scenario (w : World) (i : Bool)
    (md1 md2 : List Char) (u path : List Char)
    (hu : w.uploadResult = .ok u)
    (ho : w.ocrResult = .ok [⟨md1, []⟩, ⟨md2, []⟩])
    (hT : w.tempFileResult = .ok path) :
    (process_pdf_ocr w i false).result.markdown =
      "<!-- Page 1 -->\n\n".data ++ md1 ++ "\n\n".data ++
        "<!-- Page 2 -->\n\n".data ++ md2 ++ "\n\n".data ∧
    (process_pdf_ocr w i false).result.status =
      "✓ Successfully processed 2 page(s)".data := by
  have hasm : assemble i [⟨md1, []⟩, ⟨md2, []⟩] =
      .ok ("<!-- Page 1 -->\n\n".data ++ (md1 ++ ("\n\n".data ++
        ("<!-- Page 2 -->\n\n".data ++ (md2 ++ "\n\n".data))))) := by
    rw [assemble, assemblePages,
      show processPage i ⟨md1, []⟩ = .ok md1 by
        simp [processPage],
      assemblePages,
      show processPage i ⟨md2, []⟩ = .ok md2 by
        simp [processPage],
      assemblePages]
    rw [show pageMarker 1 = "<!-- Page 1 -->\n\n".data from rfl,
      show pageMarker 2 = "<!-- Page 2 -->\n\n".data from rfl]
    simp
  constructor <;>
    simp [process_pdf_ocr, hu, ho, hasm, hT, List.append_assoc,
      show successStatus 2 = "✓ Successfully processed 2 page(s)".data
        from rfl]

/-- Claim C7 witness: the concrete two-page run. -/
theorem c7_witness :
    (process_pdf_ocr wTwoPages true false).result.markdown =
      "<!-- Page 1 -->\n\n".data ++ "A".data ++ "\n\n".data ++
        "<!-- Page 2 -->\n\n".data ++ "B".data ++ "\n\n".data ∧
    (process_pdf_ocr wTwoPages true false).result.status =
      "✓ Successfully processed 2 page(s)".data :=
  c7_two_page_scenario wTwoPages true ("A".data) ("B".data) ("u".data)
    ("/tmp/out.md".data) rfl rfl rfl

/-- Claim C8 (amended): on every run that reaches the persist phase the
progress callbacks are exactly the checkpoints 0%, 30%, 70%, then 90% if
and only if cleanup is requested AND the cleanup service is available,
then 100%, one per phase in the order Upload → OCR → Assemble →
(Cleanup) → Persist; the callbacks are a pure side channel of the run.
(The original "90% iff cleanup is enabled" is refuted by
`c8_counterexample`: with the service unconfigured the checkbox value is
still passed as true but the 90% checkpoint is skipped.) -/
theorem c8_progress_checkpoints (w : World) (i c : Bool)
    (u : List Char) (pages : List OcrPage) (md : List Char)
    (hu : w.uploadResult = .ok u) (ho : w.ocrResult = .ok pages)
    (ha : assemble i pages = .ok md) :
    (process_pdf_ocr w i c).events =
      [⟨0, "Uploading PDF to Mistral...".data⟩,
       ⟨30, "Processing OCR...".data⟩,
       ⟨70, "Generating markdown...".data⟩] ++
      (if c && w.geminiAvailable then
        [⟨90, "Cleaning up markdown with Gemini...".data⟩] else []) ++
      [⟨100, "Complete!".data⟩] := by
  cases hT : w.tempFileResult <;>
    cases hg : c && w.geminiAvailable <;>
      simp [process_pdf_ocr, hu, ho, ha, hT, hg]

/-- A successful world with the cleanup service unavailable. -/
def wNoGemini : World :=
  ⟨.ok ("u".data), .ok [⟨"A".data, []⟩], false,
    fun _ => .error ⟨[]⟩, .ok ("/tmp/out.md".data)⟩

/-- Claim C8 counterexample: a successful run with the cleanup flag
enabled but the service unconfigured emits the checkpoints 0, 30, 70,
100 and no 90% checkpoint, refuting "90% if and only if cleanup is
enabled". -/
theorem c8_counterexample :
    (process_pdf_ocr wNoGemini true true).events.map ProgressEvent.percent =
      [0, 30, 70, 100] ∧
    (process_pdf_ocr wNoGemini true true).result.file.isSome = true := by
  exact ⟨rfl, rfl⟩

/-- A successful world with the cleanup service available. -/
def wWithGemini : World :=
  ⟨.ok ("u".data), .ok [⟨"A".data, []⟩], true,
    fun _ => .ok ("cleaned".data), .ok ("/tmp/out.md".data)⟩

/-- Claim C8 witness: with cleanup requested and available all five
checkpoints fire in order. -/
theorem c8_witness :
    (process_pdf_ocr wWithGemini true true).events =
      [⟨0, "Uploading PDF to Mistral...".data⟩,
       ⟨30, "Processing OCR...".data⟩,
       ⟨70, "Generating markdown...".data⟩,
       ⟨90, "Cleaning up markdown with Gemini...".data⟩,
       ⟨100, "Complete!".data⟩] := by
  have h := c8_progress_checkpoints wWithGemini true true ("u".data)
    [⟨"A".data, []⟩] ("<!-- Page 1 -->\n\nA\n\n".data) rfl rfl rfl
  simpa using h

/-- Claim C10: the driver is a total function — every run returns either
the uniform error tuple or a success tuple — and a failure of the final
persist phase, after assembly and cleanup succeeded, is caught by the
same top-level handler, returning the error tuple and discarding the
assembled markdown (nothing is returned, nothing persisted). -/
theorem c10_no_exception_escape (w : World) (i c : Bool) :
    ((∃ m, (process_pdf_ocr w i c).result =
        ⟨[], none, "✗ Error processing PDF: ".data ++ m⟩) ∨
      (∃ md path n, (process_pdf_ocr w i c).result =
        ⟨md, some path, successStatus n⟩)) ∧
    (∀ e u pages md, w.uploadResult = .ok u → w.ocrResult = .ok pages →
      assemble i pages = .ok md → w.tempFileResult = .error e →
      (process_pdf_ocr w i c).result =
        ⟨[], none, "✗ Error processing PDF: ".data ++ e.msg⟩ ∧
      (process_pdf_ocr w i c).written = none) := by
  constructor
  · cases hu : w.uploadResult with
    | error e => exact Or.inl ⟨e.msg, by simp [process_pdf_ocr, hu, errorResult]⟩
    | ok u =>
      cases ho : w.ocrResult with
      | error e =>
        exact Or.inl ⟨e.msg, by simp [process_pdf_ocr, hu, ho, errorResult]⟩
      | ok pages =>
        cases ha : assemble i pages with
        | error e =>
          exact Or.inl ⟨e.msg,
            by simp [process_pdf_ocr, hu, ho, ha, errorResult]⟩
        | ok md =>
          cases hT : w.tempFileResult with
          | error e =>
            exact Or.inl ⟨e.msg,
              by simp [process_pdf_ocr, hu, ho, ha, hT, errorResult]⟩
          | ok path =>
            refine Or.inr ⟨if c && w.geminiAvailable then
              cleanup_markdown_with_gemini w md else md,
              path, pages.length, ?_⟩
            cases hg : c && w.geminiAvailable <;>
              simp [process_pdf_ocr, hu, ho, ha, hT, hg]
  · intro e u pages md hu ho ha hT
    constructor <;> simp [process_pdf_ocr, hu, ho, ha, hT, errorResult]

/-- A world failing only at temp-file persistence. -/
def wPersistError : World :=
  ⟨.ok ("u".data), .ok [⟨"A".data, []⟩], false,
    fun _ => .error ⟨[]⟩, .error ⟨"No space left on device".data⟩⟩

/-- Claim C10 witness: a persist failure after successful assembly
yields the error tuple and discards the assembled markdown. -/
theorem c10_witness :
    (process_pdf_ocr wPersistError true false).result =
      ⟨[], none,
        "✗ Error processing PDF: No space left on device".data⟩ ∧
    (process_pdf_ocr wPersistError true false).written = none := by
  have h := (c10_no_exception_escape wPersistError true false).2
    ⟨"No space left on device".data⟩ ("u".data) [⟨"A".data, []⟩]
    ("<!-- Page 1 -->\n\nA\n\n".data) rfl rfl rfl rfl
  exact h
